import Mathlib

/-!
# secondbrain — verification of the extraction/search core

Shallow embedding of the content-extraction, polling, snippet and
keyword-ranking logic of the `secondbrain` repository
(`server/mcp_server.py`, `server/app.py`, `server/App/models.py`),
together with theorems settling the specification's claims about it.

Python strings are modelled as `List Char`; Python values decoded from
JSON are modelled by the inductive type `JsonValue`; machine integers do
not occur (all Python ints here are unbounded, as in CPython).

Layout: all definitions first (each doc comment names the source lines it
embeds), then the theorems, grouped by claim.
-/
/-- The text alias used throughout: a Python string as a list of characters. -/
abbrev PyStr := List Char

/-- A JSON value as produced by `json.loads` / held in `gumloop_data`.
Numbers are modelled as integers (no claim depends on float payloads). -/
inductive JsonValue where
  | null : JsonValue
  | bool (b : Bool) : JsonValue
  | num (n : Int) : JsonValue
  | str (s : PyStr) : JsonValue
  | arr (items : List JsonValue) : JsonValue
  | obj (fields : List (String × JsonValue)) : JsonValue

namespace JsonValue

/-- Python truthiness (`bool(v)`) of a JSON value: `None`, `False`, `0`,
`""`, `[]`, `{}` are falsy, everything else truthy. -/
def truthy : JsonValue → Bool
  | .null => false
  | .bool b => b
  | .num n => n != 0
  | .str s => !s.isEmpty
  | .arr l => !l.isEmpty
  | .obj l => !l.isEmpty

/-- `str(v)` for scalar (non-container, non-string) values, mirroring
CPython: `str(None) = "None"`, `str(True) = "True"`, `str(3) = "3"`. -/
def pyStrScalar : JsonValue → PyStr
  | .null => "None".data
  | .bool true => "True".data
  | .bool false => "False".data
  | .num n => (toString n).data
  | .str s => s
  | .arr _ => []
  | .obj _ => []

/-- Python `key in d and d[key]` membership lookup on a dict modelled as an
association list (Python dict keys are unique; first match is the match). -/
def jlookup : List (String × JsonValue) → String → Option JsonValue
  | [], _ => none
  | (k, v) :: rest, key => if k = key then some v else jlookup rest key

end JsonValue

/-! ## `extract_text_content` (`mcp_server.py` lines 99-135) -/

/-- The fixed probe order of `extract_text_content`
(`mcp_server.py` line 113). -/
def probeKeys : List String :=
  ["website_content", "output", "content", "extracted_content", "text"]

/-- First probe key present in the dict with a truthy value, and that value
(the loop at `mcp_server.py` lines 113-116). -/
def probeVal (fields : List (String × JsonValue)) : List String → Option JsonValue
  | [] => none
  | k :: rest =>
    match JsonValue.jlookup fields k with
    | some v => if v.truthy then some v else probeVal fields rest
    | none => probeVal fields rest

mutual

/-- Structural size of a JSON value (counting one unit per node and per
list cell), used as the fuel bound for the extraction recursion. -/
def jsize : JsonValue → Nat
  | .null | .bool _ | .num _ | .str _ => 1
  | .arr l => 1 + jlsize l
  | .obj l => 1 + jflsize l

/-- Size of a JSON array's elements. -/
def jlsize : List JsonValue → Nat
  | [] => 1
  | v :: rest => 1 + jsize v + jlsize rest

/-- Size of a JSON object's fields. -/
def jflsize : List (String × JsonValue) → Nat
  | [] => 1
  | (_, v) :: rest => 1 + jsize v + jflsize rest

end

/-- `" ".join(parts)` — join with single spaces. -/
def pyJoin : List PyStr → PyStr
  | [] => []
  | [p] => p
  | p :: rest => p ++ ' ' :: pyJoin rest

mutual

/-- `extract_text_content` (`mcp_server.py` lines 99-135) with explicit
fuel; `none` models non-termination (never reached: see
`extractFuel_total`).

The source, branch by branch: falsy input returns `""`; a string is
returned verbatim; a dict is probed for the first truthy key in
`probeKeys` and recursed into, else all its string values and recursive
extractions of nested dict/list values are joined with spaces (other
scalars are skipped); a list is extracted elementwise and joined;
any other value is returned as `str(value)`. -/
def extractFuel (fuel : Nat) (v : JsonValue) : Option String :=
  match fuel with
  | 0 => none
  | f + 1 =>
    if !v.truthy then some "" else
    match v with
    | .str s => some (String.mk s)
    | .obj fields =>
      match probeVal fields probeKeys with
      | some pv => extractFuel f pv
      | none =>
        match extractObjParts f fields with
        | some parts => some (String.mk (pyJoin parts))
        | none => none
    | .arr items =>
      match extractArrParts f items with
      | some parts => some (String.mk (pyJoin parts))
      | none => none
    | other => some (String.mk other.pyStrScalar)

/-- The `text_parts` loop of the dict fallback (`mcp_server.py`
lines 119-127): strings verbatim, dict/list values recursively, other
values skipped. -/
def extractObjParts (fuel : Nat) (l : List (String × JsonValue)) :
    Option (List PyStr) :=
  match fuel with
  | 0 => none
  | f + 1 =>
    match l with
    | [] => some []
    | (_, fv) :: rest =>
      match fv with
      | .str s =>
        match extractObjParts f rest with
        | some parts => some (s :: parts)
        | none => none
      | .obj _ | .arr _ =>
        match extractFuel f fv with
        | some s =>
          match extractObjParts f rest with
          | some parts => some (s.data :: parts)
          | none => none
        | none => none
      | _ => extractObjParts f rest

/-- The list case (`mcp_server.py` lines 130-132): extract every element. -/
def extractArrParts (fuel : Nat) (l : List JsonValue) : Option (List PyStr) :=
  match fuel with
  | 0 => none
  | f + 1 =>
    match l with
    | [] => some []
    | v :: rest =>
      match extractFuel f v with
      | some s =>
        match extractArrParts f rest with
        | some parts => some (s.data :: parts)
        | none => none
      | none => none

end

/-- `extract_text_content` itself: run with fuel sufficient for the whole
value (`extractFuel_total` shows the fuel is never exhausted). -/
def extract_text_content (v : JsonValue) : String :=
  (extractFuel (jsize v) v).getD ""

/-- Whether a value is a non-string, non-mapping, non-sequence scalar. -/
def isScalarValue : JsonValue → Bool
  | .null | .bool _ | .num _ => true
  | _ => false

/-! ## The polling loop of `save_page` / `process_url`
(`app.py` lines 305-339 and 536-570 — the two copies are identical) -/

/-- One status-fetch response: a non-200 HTTP reply (the loop logs and
continues), or a 200 reply whose JSON body is an object (the shape the
status endpoint returns per the collaborator contract). -/
inductive PollResp where
  | httpError (status : Nat) (body : String)
  | ok (resultData : List (String × JsonValue))

/-- `result_data.get("state", "UNKNOWN")`. -/
def stateVal (fields : List (String × JsonValue)) : JsonValue :=
  (JsonValue.jlookup fields "state").getD (JsonValue.str "UNKNOWN".data)

/-- `final_state in ["DONE", "FAILED", "TERMINATED"]` (`==` against the
three strings; a non-string state never compares equal). -/
def isTerminalState : JsonValue → Bool
  | .str s => s = "DONE".data || s = "FAILED".data || s = "TERMINATED".data
  | _ => false

/-- Whether the i-th fetch would stop the loop. -/
def isTerminalResp : PollResp → Bool
  | .httpError _ _ => false
  | .ok fields => isTerminalState (stateVal fields)

/-- Final loop state: the last fetched body (if any fetch returned 200),
the last seen state string, and the number of status fetches issued. -/
structure PollOutcome where
  resultData : Option (List (String × JsonValue))
  finalState : JsonValue
  attempts : Nat

/-- The body of `for attempt in range(max_attempts)`: fetch, on non-200
sleep and continue; on 200 record the body and its state and break when
the state is terminal. `left` is the remaining attempt budget, `i` the
number of fetches already issued. -/
def pollAux (oracle : Nat → PollResp) :
    Nat → Nat → Option (List (String × JsonValue)) → JsonValue → PollOutcome
  | 0, i, data, state => ⟨data, state, i⟩
  | left + 1, i, data, state =>
    match oracle i with
    | .httpError _ _ => pollAux oracle left (i + 1) data state
    | .ok fields =>
      let st := stateVal fields
      if isTerminalState st then ⟨some fields, st, i + 1⟩
      else pollAux oracle left (i + 1) (some fields) st

/-- The polling loop: `max_attempts = 10`, starting from
`result_data = None`, `final_state = "UNKNOWN"`. -/
def poll_loop (oracle : Nat → PollResp) : PollOutcome :=
  pollAux oracle 10 0 none (JsonValue.str "UNKNOWN".data)

/-- An example status oracle: two `RUNNING` replies, then `DONE`. -/
def doneAtThird : Nat → PollResp := fun n =>
  if n = 2 then .ok [("state", JsonValue.str "DONE".data)]
  else .ok [("state", JsonValue.str "RUNNING".data)]

/-! ## `save_page` (`app.py` lines 176-437), modelled from the inner
try-block (line 234 onward): title and url have been validated and the
Gumloop configuration is present -/

/-- Outcome of the `start_pipeline` POST: a network-level
`requests.exceptions.RequestException` (caught at line 408), a non-200
reply (line 247), or a 200 reply with a JSON object body. -/
inductive StartOutcome where
  | netError (msg : PyStr)
  | httpError (status : Nat) (body : PyStr)
  | ok (body : List (String × JsonValue))

/-- One persisted `SavedPage` row (`App/models.py` lines 26-32). -/
structure SavedPageRow where
  title : PyStr
  url : PyStr
  gumloopData : JsonValue
  savedItemId : JsonValue

/-- The locally synthesized fallback id
`f"{int(time.time())}-{uuid.uuid4().hex[:8]}"` (lines 252, 277, 412). -/
def fallbackId (timeNow : Int) (uuidHex : PyStr) : PyStr :=
  (toString timeNow).data ++ '-' :: uuidHex.take 8

/-- First key present in a dict (no truthiness check) — the
`website_content` probe of the save path (lines 372-383). -/
def presentVal (fields : List (String × JsonValue)) : List String → Option JsonValue
  | [] => none
  | k :: rest =>
    match JsonValue.jlookup fields k with
    | some v => some v
    | none => presentVal fields rest

/-- The probe order at lines 372-383. -/
def saveContentKeys : List String :=
  ["Website Content", "output", "text", "content", "extracted_content", "html"]

/-- `result_data.get("outputs", {})`, as a dict (a non-object value would
raise on `in` in Python; the status endpoint returns an object). -/
def getOutputs (fields : List (String × JsonValue)) : List (String × JsonValue) :=
  match JsonValue.jlookup fields "outputs" with
  | some (.obj l) => l
  | _ => []

/-- `final_state != "DONE"` (negated). -/
def stateIsDone : JsonValue → Bool
  | .str s => s = "DONE".data
  | _ => false

/-- Whether a JSON object value has the given key. -/
def hasKey (v : JsonValue) (k : String) : Bool :=
  match v with
  | .obj l => (JsonValue.jlookup l k).isSome
  | _ => false

/-- What `save_page` hands back: the rows written by `db.session.add` /
`commit`, and the essentials of the `jsonify` response. -/
structure SaveResult where
  rows : List SavedPageRow
  status : String
  httpCode : Nat
  runId : Option JsonValue
  websiteContent : Option JsonValue

/-- `save_page` from the `start_pipeline` call onward (lines 234-429):
non-200 and network errors persist one row with an `{"error": ...}`
payload and a synthesized id; a 200 without a truthy `run_id` persists the
start body under a synthesized id; otherwise the status endpoint is
polled (`poll_loop`) and the row holds the start body (run not `DONE` or
no/empty body fetched) or the fetched result. -/
def save_page (title url : PyStr) (start : StartOutcome)
    (oracle : Nat → PollResp) (timeNow : Int) (uuidHex : PyStr) : SaveResult :=
  match start with
  | .netError e =>
    { rows := [⟨title, url, .obj [("error", .str e)], .str (fallbackId timeNow uuidHex)⟩]
      status := "partial_success", httpCode := 202
      runId := some (.str (fallbackId timeNow uuidHex)), websiteContent := none }
  | .httpError _ body =>
    { rows := [⟨title, url, .obj [("error", .str body)], .str (fallbackId timeNow uuidHex)⟩]
      status := "partial_success", httpCode := 202
      runId := some (.str (fallbackId timeNow uuidHex)), websiteContent := none }
  | .ok body =>
    match JsonValue.jlookup body "run_id" with
    | none =>
      { rows := [⟨title, url, .obj body, .str (fallbackId timeNow uuidHex)⟩]
        status := "partial_success", httpCode := 202
        runId := some (.str (fallbackId timeNow uuidHex)), websiteContent := none }
    | some rid =>
      if !rid.truthy then
        { rows := [⟨title, url, .obj body, .str (fallbackId timeNow uuidHex)⟩]
          status := "partial_success", httpCode := 202
          runId := some (.str (fallbackId timeNow uuidHex)), websiteContent := none }
      else
        let p := poll_loop oracle
        match p.resultData with
        | none =>
          { rows := [⟨title, url, .obj body, rid⟩]
            status := "partial_success", httpCode := 202
            runId := some rid, websiteContent := none }
        | some fetched =>
          if fetched.isEmpty || !stateIsDone p.finalState then
            { rows := [⟨title, url, .obj body, rid⟩]
              status := "partial_success", httpCode := 202
              runId := some rid, websiteContent := none }
          else
            { rows := [⟨title, url, .obj fetched, rid⟩]
              status := "success", httpCode := 200
              runId := some rid
              websiteContent := presentVal (getOutputs fetched) saveContentKeys }

/-! ## String primitives used by the snippet code -/

/-- `str.lower()` (ASCII, which is all this data contains). -/
def toLowerP (s : PyStr) : PyStr := s.map Char.toLower

/-- `hay.find(needle)`: index of the first occurrence, `-1` if absent
(`""` is found at 0, as in Python). -/
def strFindAux (needle : PyStr) : PyStr → Nat → Int
  | [], i => if needle.isPrefixOf [] then (i : Int) else -1
  | c :: rest, i =>
    if needle.isPrefixOf (c :: rest) then (i : Int)
    else strFindAux needle rest (i + 1)

/-- See `strFindAux`. -/
def strFind (hay needle : PyStr) : Int := strFindAux needle hay 0

/-- Index of the last `' '` in the list, if any. -/
def lastSpaceIdx : PyStr → Option Nat
  | [] => none
  | c :: rest =>
    match lastSpaceIdx rest with
    | some j => some (j + 1)
    | none => if c = ' ' then some 0 else none

/-- `text.rfind(" ", 0, endB)`: last space strictly before `endB` (Python
clamps `endB` past the end of the string). -/
def rfindSpace (text : PyStr) (endB : Nat) : Option Nat :=
  lastSpaceIdx (text.take endB)

/-- Index of the first `' '` in the list, if any. -/
def firstSpaceIdx : PyStr → Option Nat
  | [] => none
  | c :: rest =>
    if c = ' ' then some 0 else (firstSpaceIdx rest).map (· + 1)

/-- Python's normalization of a (possibly negative) `find` start index:
a negative `start` means `max(0, len + start)`. -/
def pyClampFrom (len : Nat) (start : Int) : Nat :=
  if start < 0 then (len + start).toNat else start.toNat

/-- `text.find(" ", start)`: first space at or after the clamped `start`. -/
def findSpaceFrom (text : PyStr) (start : Int) : Option Nat :=
  let s : Nat := pyClampFrom text.length start
  (firstSpaceIdx (text.drop s)).map (s + ·)

/-! ## `extract_content_snippet_advanced` (`mcp_server.py` lines 352-404) -/

/-- `content_text.lower().find(query.lower())`. -/
def snippetQueryPos (text query : PyStr) : Int :=
  strFind (toLowerP text) (toLowerP query)

/-- `start_pos` after the centering and the end-of-text shift
(lines 367-372): `max(0, query_pos - max_length//2)`, then pulled back to
`max(0, len - max_length)` when the window hits the end of the text. -/
def snippetStart0 (text query : PyStr) (maxLen : Nat) : Nat :=
  let qp := (snippetQueryPos text query).toNat
  let s1 := qp - maxLen / 2
  let e1 := min text.length (s1 + maxLen)
  if e1 = text.length then text.length - maxLen else s1

/-- `end_pos = min(len, start_pos + max_length)` (line 368). -/
def snippetEnd0 (text query : PyStr) (maxLen : Nat) : Nat :=
  let qp := (snippetQueryPos text query).toNat
  let s1 := qp - maxLen / 2
  min text.length (s1 + maxLen)

/-- The word-boundary adjustment of `start_pos` (lines 375-379):
`rfind(" ", 0, start_pos + 20)`, and one past that space when found. -/
def snippetAdjStart (text query : PyStr) (maxLen : Nat) : Nat :=
  let s0 := snippetStart0 text query maxLen
  if 0 < s0 then
    match rfindSpace text (s0 + 20) with
    | some j => j + 1
    | none => s0
  else s0

/-- The word-boundary adjustment of `end_pos` (lines 381-385):
`find(" ", end_pos - 20)`, and that space when found. -/
def snippetAdjEnd (text query : PyStr) (maxLen : Nat) : Nat :=
  let e0 := snippetEnd0 text query maxLen
  if e0 < text.length then
    match findSpaceFrom text ((e0 : Int) - 20) with
    | some j => j
    | none => e0
  else e0

/-- `re.sub(f"({re.escape(query)})", r"**\1**", s, flags=IGNORECASE)` for a
non-empty pattern: wrap each leftmost non-overlapping case-insensitive
occurrence in `**`. -/
def highlightAux (query : PyStr) (s : PyStr) : PyStr :=
  match s with
  | [] => []
  | c :: rest =>
    if query ≠ [] ∧ (toLowerP query).isPrefixOf (toLowerP (c :: rest)) = true then
      "**".data ++ (c :: rest).take query.length ++ "**".data ++
        highlightAux query ((c :: rest).drop query.length)
    else c :: highlightAux query rest
termination_by s.length
decreasing_by
  · simp only [List.length_drop, List.length_cons]
    have : query.length ≠ 0 := by
      intro h0
      exact (by assumption : query ≠ [] ∧ _).1 (List.length_eq_zero.mp h0)
    omega
  · simp

/-- The `re.sub` highlight, including CPython's behaviour for the empty
pattern (a `"****"` inserted at every position). -/
def pyReSubHighlight (query s : PyStr) : PyStr :=
  if query = [] then "****".data ++ s.foldr (fun c acc => c :: ("****".data ++ acc)) []
  else highlightAux query s

/-- `extract_content_snippet_advanced(content_text, query, max_length)`:
`None` on falsy text; the head of the text plus `"..."` when the query is
absent; otherwise the boundary-adjusted window with ellipsis markers and
the match highlighted. -/
def extract_content_snippet_advanced (text query : PyStr) (maxLen : Nat) :
    Option PyStr :=
  if text.isEmpty then none
  else if snippetQueryPos text query = -1 then
    some (text.take maxLen ++ "...".data)
  else
    let s := snippetAdjStart text query maxLen
    let e := snippetAdjEnd text query maxLen
    let core := (text.take e).drop s
    some (pyReSubHighlight query
      ((if 0 < s then "...".data else []) ++ core ++
        (if e < text.length then "...".data else [])))

/-! ## `extract_content_snippet` (`mcp_server.py` lines 406-452) -/

/-- JSON string escaping as in `json.dumps` (quote and backslash; control
characters do not occur in this data and are left as-is). -/
def jstrEscape : PyStr → PyStr
  | [] => []
  | c :: rest =>
    if c = '"' ∨ c = '\\' then '\\' :: c :: jstrEscape rest
    else c :: jstrEscape rest

mutual

/-- Models `json.dumps(value)` (CPython defaults: `", "` and `": "`
separators). -/
def jdump : JsonValue → PyStr
  | .null => "null".data
  | .bool true => "true".data
  | .bool false => "false".data
  | .num n => (toString n).data
  | .str s => '"' :: jstrEscape s ++ ['"']
  | .arr l => '[' :: jdumpList l ++ [']']
  | .obj l => Char.ofNat 123 :: jdumpFields l ++ [Char.ofNat 125]

/-- Elements of a dumped JSON array. -/
def jdumpList : List JsonValue → PyStr
  | [] => []
  | [v] => jdump v
  | v :: rest => jdump v ++ ", ".data ++ jdumpList rest

/-- Fields of a dumped JSON object. -/
def jdumpFields : List (String × JsonValue) → PyStr
  | [] => []
  | [(k, v)] => '"' :: jstrEscape k.data ++ "\": ".data ++ jdump v
  | (k, v) :: rest =>
    '"' :: jstrEscape k.data ++ "\": ".data ++ jdump v ++ ", ".data ++
      jdumpFields rest

end

mutual

/-- Models CPython `repr()` of a decoded JSON value (string quote
escaping inside elements not modelled; unused by any claim). -/
def pyReprVal : JsonValue → PyStr
  | .null => "None".data
  | .bool true => "True".data
  | .bool false => "False".data
  | .num n => (toString n).data
  | .str s => Char.ofNat 39 :: s ++ [Char.ofNat 39]
  | .arr l => '[' :: pyReprList l ++ [']']
  | .obj l => Char.ofNat 123 :: pyReprFields l ++ [Char.ofNat 125]

/-- Elements of a repr'd list. -/
def pyReprList : List JsonValue → PyStr
  | [] => []
  | [v] => pyReprVal v
  | v :: rest => pyReprVal v ++ ", ".data ++ pyReprList rest

/-- Fields of a repr'd dict. -/
def pyReprFields : List (String × JsonValue) → PyStr
  | [] => []
  | [(k, v)] => Char.ofNat 39 :: k.data ++ [Char.ofNat 39] ++ ": ".data ++ pyReprVal v
  | (k, v) :: rest =>
    Char.ofNat 39 :: k.data ++ [Char.ofNat 39] ++ ": ".data ++ pyReprVal v ++
      ", ".data ++ pyReprFields rest

end

/-- `str(content)` for a non-dict value: a string stays itself, a list
falls back to its repr, scalars to their textual form. -/
def pyStrFull : JsonValue → PyStr
  | .str s => s
  | .arr l => pyReprVal (.arr l)
  | .obj l => pyReprVal (.obj l)
  | v => JsonValue.pyStrScalar v

/-- `extract_content_snippet(content, query, max_length)`
(`mcp_server.py` lines 406-452): falsy content gives `None`; a dict is
probed for the first truthy key in `probeKeys` (non-recursively), falling
back to `json.dumps`; other content is `str()`-ed. The query window is
then computed exactly as in the advanced variant but with **no**
word-boundary adjustment and no highlighting. `Except.error ()` models
the `AttributeError` Python raises when a probed dict value is not a
string (`.lower()` on a non-string). -/
def extract_content_snippet (content : JsonValue) (query : PyStr)
    (maxLen : Nat) : Except Unit (Option PyStr) :=
  if !content.truthy then .ok none
  else
    let tc : Except Unit PyStr :=
      match content with
      | .obj fields =>
        match probeVal fields probeKeys with
        | some (.str s) => .ok s
        | some _ => .error ()
        | none => .ok (jdump (.obj fields))
      | other => .ok (pyStrFull other)
    match tc with
    | .error _ => .error ()
    | .ok text =>
      let qpos := strFind (toLowerP text) (toLowerP query)
      if qpos = -1 then .ok (some (text.take maxLen ++ "...".data))
      else
        let qp := qpos.toNat
        let s1 := qp - maxLen / 2
        let e1 := min text.length (s1 + maxLen)
        let s0 := if e1 = text.length then text.length - maxLen else s1
        let core := (text.take e1).drop s0
        .ok (some ((if 0 < s0 then "...".data else []) ++ core ++
          (if e1 < text.length then "...".data else [])))

/-! ## Independent characterizations of the word-boundary search -/

/-- No space at any index in `[lo, hi)` of `text`. -/
def NoSpaceIn (text : PyStr) (lo hi : Nat) : Prop :=
  ∀ i, lo ≤ i → i < hi → text[i]? ≠ some ' '

/-- `j` is the last space of `text` strictly before `bound` (clamped to
the text length). -/
def IsLastSpaceBefore (text : PyStr) (bound j : Nat) : Prop :=
  j < min bound text.length ∧ text[j]? = some ' ' ∧
    ∀ i, j < i → i < min bound text.length → text[i]? ≠ some ' '

/-- `j` is the first space of `text` at or after `s`. -/
def IsFirstSpaceFrom (text : PyStr) (s j : Nat) : Prop :=
  s ≤ j ∧ j < text.length ∧ text[j]? = some ' ' ∧
    ∀ i, s ≤ i → i < j → text[i]? ≠ some ' '

/-- Text refuting C6: a space near the start, the query far from both
text boundaries, and no space near the window. -/
def cexText : PyStr :=
  "a b".data ++ List.replicate 40 'c' ++ 'q' :: List.replicate 40 'c'

/-- Text for the boundary-adjustment witness: several spaces. -/
def wText : PyStr := "aa bb cc dd ee".data

/-! ## KeywordRanker scoring (`mcp_server.py` lines 216-230) -/

/-- Python's substring test `needle in hay`. -/
def isSubstrOf (needle : PyStr) : PyStr → Bool
  | [] => needle.isPrefixOf []
  | c :: rest => needle.isPrefixOf (c :: rest) || isSubstrOf needle rest

/-- The per-page score loop of `conversational_search`: for each filtered
query word, `+3` when it occurs as a substring of the lowercased title
and `+1` when it occurs in the lowercased body. -/
def score_page (words : List PyStr) (title body : PyStr) : Nat :=
  words.foldl (fun acc w =>
    acc + (if isSubstrOf w (toLowerP title) then 3 else 0)
        + (if isSubstrOf w (toLowerP body) then 1 else 0)) 0

/-! ## `llm_rank_search_results` (`mcp_server.py` lines 289-350) -/

/-- One search-result document as built by `advanced_search_database`:
identity fields plus the mutable `relevance_score` (absent when the key
is missing; scores are modelled as rationals — the claim's properties do
not depend on float rounding). -/
structure SearchDoc where
  id : Int
  title : PyStr
  url : PyStr
  savedAt : PyStr
  contentSnippet : Option PyStr
  contentText : PyStr
  relevanceScore : Option ℚ

/-- `x.get("relevance_score", 0)` — the sort key. -/
def relKey (d : SearchDoc) : ℚ := d.relevanceScore.getD 0

/-- Python dict write (overwrite if present, append otherwise). -/
def updateAssocQ : List (Int × ℚ) → Int → ℚ → List (Int × ℚ)
  | [], k, v => [(k, v)]
  | (k', v') :: rest, k, v =>
    if k' = k then (k, v) :: rest else (k', v') :: updateAssocQ rest k v

/-- Python dict read. -/
def lookupQ : List (Int × ℚ) → Int → Option ℚ
  | [], _ => none
  | (k', v') :: rest, k => if k' = k then some v' else lookupQ rest k

/-- The `scores_map` built from the parsed `"Result N ... s/10"` matches
(lines 326-336): for each match, `result_idx = N - 1`; an in-range index
records `scores_map[processing[idx].id] = s / 10`; everything else is
skipped (the `except (ValueError, IndexError): continue`). -/
def buildScoresMap (processing : List SearchDoc) :
    List (Nat × ℚ) → List (Int × ℚ) → List (Int × ℚ)
  | [], acc => acc
  | (num, raw) :: rest, acc =>
    if num = 0 then buildScoresMap processing rest acc
    else
      match processing.get? (num - 1) with
      | some d => buildScoresMap processing rest (updateAssocQ acc d.id (raw / 10))
      | none => buildScoresMap processing rest acc

/-- Stable insertion (documents with an equal key keep their original
relative order, as with Python's stable `sorted`). -/
def insertDesc (d : SearchDoc) : List SearchDoc → List SearchDoc
  | [] => [d]
  | e :: rest =>
    if relKey e ≤ relKey d then d :: e :: rest else e :: insertDesc d rest

/-- `sorted(results, key=lambda x: x.get("relevance_score", 0),
reverse=True)` — stable descending sort. -/
def sortDesc : List SearchDoc → List SearchDoc
  | [] => []
  | d :: rest => insertDesc d (sortDesc rest)

set_option linter.unusedVariables false in
/-- `llm_rank_search_results(query, results)`. The LLM call and the regex
parse are modelled by the `llm` oracle: `.ok matches` gives the parsed
`(result number, raw 0-10 score)` pairs, `.error` models an exception
raised by the call or the parsing, caught at line 347 to return the input
unchanged. In-place mutation of the first five documents plus the
id-keyed update loop over all documents (lines 326-341) collapses to one
id-keyed update: any index-mutated document also has its id recorded in
`scores_map` in the same iteration, so the final score of every document
whose id is in the map is the map's value. -/
def llm_rank_search_results (query : PyStr) (results : List SearchDoc)
    (llm : Except Unit (List (Nat × ℚ))) : List SearchDoc :=
  match llm with
  | .error _ => results
  | .ok scoreMatches =>
    let processing := results.take 5
    let scoresMap := buildScoresMap processing scoreMatches []
    let updated := results.map (fun d =>
      match lookupQ scoresMap d.id with
      | some s => { d with relevanceScore := some s }
      | none => d)
    sortDesc updated

/-- The identity of a document — everything except the mutable score. -/
def docCore (d : SearchDoc) :
    Int × PyStr × PyStr × PyStr × Option PyStr × PyStr :=
  (d.id, d.title, d.url, d.savedAt, d.contentSnippet, d.contentText)

/-! ## `search_database` (lines 39-69) and `advanced_search_database`
(lines 137-182) of `mcp_server.py` -/

/-- A stored `SavedPage` row as the search functions see it:
`saved_at` is kept pre-formatted; `gumloopData = none` models a SQL NULL
column. -/
structure StoredPage where
  id : Int
  title : PyStr
  url : PyStr
  savedAt : PyStr
  gumloopData : Option JsonValue

/-- The Python-side value of `page.gumloop_data` (NULL loads as `None`,
which behaves exactly like JSON null here). -/
def pyData (p : StoredPage) : JsonValue := p.gumloopData.getD .null

/-- SQLite `column LIKE '%query%'` (case-insensitive for ASCII). -/
def likeCI (pat s : PyStr) : Bool := isSubstrOf (toLowerP pat) (toLowerP s)

/-- One formatted result of the basic search. -/
structure ResultItem where
  id : Int
  title : PyStr
  url : PyStr
  savedAt : PyStr
  contentSnippet : Option PyStr

/-- The dict returned by the basic search. -/
structure SearchResult where
  message : PyStr
  items : List ResultItem

/-- The SQL filter of `search_database`: title LIKE or serialized
`gumloop_data` LIKE (a NULL column never matches). -/
def searchMatch (query : PyStr) (p : StoredPage) : Bool :=
  likeCI query p.title ||
    (match p.gumloopData with
     | some v => likeCI query (jdump v)
     | none => false)

/-- The result-formatting loop of `search_database` (lines 60-67);
`content_snippet` is computed only for truthy `gumloop_data`, and a
snippet-extraction `AttributeError` propagates. -/
def mapSnippets (query : PyStr) : List StoredPage → Except Unit (List ResultItem)
  | [] => .ok []
  | p :: rest =>
    let snip : Except Unit (Option PyStr) :=
      if (pyData p).truthy then extract_content_snippet (pyData p) query 200
      else .ok none
    match snip with
    | .error e => .error e
    | .ok s =>
      match mapSnippets query rest with
      | .error e => .error e
      | .ok items => .ok (⟨p.id, p.title, p.url, p.savedAt, s⟩ :: items)

/-- `search_database(query)` over a given corpus. -/
def search_database (query : PyStr) (pages : List StoredPage) :
    Except Unit SearchResult :=
  let results := pages.filter (searchMatch query)
  if results.isEmpty then .ok ⟨"No results found".data, []⟩
  else
    match mapSnippets query results with
    | .error e => .error e
    | .ok items =>
      .ok ⟨"Found ".data ++ (toString results.length).data ++ " results".data,
        items⟩

/-- One formatted result of the advanced search (after `content_text` is
deleted from the dict). -/
structure AdvResultItem where
  id : Int
  title : PyStr
  url : PyStr
  savedAt : PyStr
  contentSnippet : Option PyStr
  relevanceScore : Option ℚ

/-- The dict returned by the advanced search. -/
structure AdvSearchResult where
  message : PyStr
  items : List AdvResultItem

/-- `del result["content_text"]` (lines 178-180). -/
def stripContent (d : SearchDoc) : AdvResultItem :=
  ⟨d.id, d.title, d.url, d.savedAt, d.contentSnippet, d.relevanceScore⟩

/-- `advanced_search_database(query, use_llm)`: an empty corpus returns
the explicit no-content result; otherwise pages whose title or extracted
content contains the query case-insensitively are collected (each with an
advanced snippet and default score 1.0), optionally re-ranked by
`llm_rank_search_results` when `use_llm` is set and the Anthropic client
is available. -/
def advanced_search_database (query : PyStr) (useLLM clientAvailable : Bool)
    (llm : Except Unit (List (Nat × ℚ))) (pages : List StoredPage) :
    AdvSearchResult :=
  if pages.isEmpty then ⟨"No saved pages found".data, []⟩
  else
    let results := pages.filterMap (fun p =>
      let ct := (extract_text_content (pyData p)).data
      if isSubstrOf (toLowerP query) (toLowerP p.title)
          || isSubstrOf (toLowerP query) (toLowerP ct) then
        some (⟨p.id, p.title, p.url, p.savedAt,
          extract_content_snippet_advanced ct query 250, ct, some 1⟩ : SearchDoc)
      else none)
    let ranked :=
      if useLLM && clientAvailable && !results.isEmpty then
        llm_rank_search_results query results llm
      else results
    ⟨"Found ".data ++ (toString ranked.length).data ++ " results".data,
      ranked.map stripContent⟩

/-- A page that matches no query used below. -/
def nonMatchingPage : StoredPage :=
  ⟨1, "alpha".data, "http://e".data, "2024-01-01 00:00:00".data, none⟩

/-! ## Totality and probe order of the extractor (claims C3, C4, C9) -/

theorem jsize_pos (v : JsonValue) : 1 ≤ jsize v := by
  cases v <;> simp [jsize]

theorem jflsize_pos (l : List (String × JsonValue)) : 1 ≤ jflsize l := by
  cases l with
  | nil => simp [jflsize]
  | cons p rest => obtain ⟨k, v⟩ := p; simp [jflsize]; omega

theorem jlsize_pos (l : List JsonValue) : 1 ≤ jlsize l := by
  cases l with
  | nil => simp [jlsize]
  | cons v rest => simp [jlsize]; omega

theorem jlookup_size {fields : List (String × JsonValue)} {k : String}
    {v : JsonValue} (h : JsonValue.jlookup fields k = some v) :
    jsize v < jflsize fields := by
  induction fields with
  | nil => simp [JsonValue.jlookup] at h
  | cons p rest ih =>
    obtain ⟨k', v'⟩ := p
    simp only [JsonValue.jlookup] at h
    by_cases hk : k' = k
    · simp [hk] at h
      subst h
      simp [jflsize]
      omega
    · simp [hk] at h
      have := ih h
      simp [jflsize]
      omega

theorem probeVal_size {fields : List (String × JsonValue)} {pv : JsonValue}
    (ks : List String) (h : probeVal fields ks = some pv) :
    jsize pv < jflsize fields := by
  induction ks with
  | nil => simp [probeVal] at h
  | cons k rest ih =>
    simp only [probeVal] at h
    cases hl : JsonValue.jlookup fields k with
    | none => rw [hl] at h; exact ih h
    | some v =>
      rw [hl] at h
      by_cases ht : v.truthy
      · simp [ht] at h
        subst h
        exact jlookup_size hl
      · simp [ht] at h
        exact ih h

theorem extractFuel_total (f : Nat) :
    (∀ v, jsize v ≤ f → (extractFuel f v).isSome = true) ∧
    (∀ l, jflsize l ≤ f → (extractObjParts f l).isSome = true) ∧
    (∀ l, jlsize l ≤ f → (extractArrParts f l).isSome = true) := by
  induction f with
  | zero =>
    refine ⟨fun v hv => ?_, fun l hl => ?_, fun l hl => ?_⟩
    · have := jsize_pos v; omega
    · have := jflsize_pos l; omega
    · have := jlsize_pos l; omega
  | succ f ih =>
    obtain ⟨ihv, iho, iha⟩ := ih
    refine ⟨fun v hv => ?_, fun l hl => ?_, fun l hl => ?_⟩
    · cases v with
      | str s => simp [extractFuel]; split <;> simp
      | null => simp [extractFuel, JsonValue.truthy]
      | bool b => cases b <;> simp [extractFuel, JsonValue.truthy]
      | num n => simp [extractFuel, JsonValue.truthy]; split <;> simp
      | obj fields =>
        simp only [extractFuel]
        by_cases ht : (JsonValue.obj fields).truthy
        · simp only [ht, Bool.not_true, Bool.false_eq_true, if_false]
          simp only [jsize] at hv
          cases hp : probeVal fields probeKeys with
          | some pv =>
            have hs := probeVal_size probeKeys hp
            exact ihv pv (by omega)
          | none =>
            have ho := iho fields (by omega)
            cases hparts : extractObjParts f fields with
            | some parts => simp
            | none => rw [hparts] at ho; simp at ho
        · simp [ht]
      | arr items =>
        simp only [extractFuel]
        by_cases ht : (JsonValue.arr items).truthy
        · simp only [ht, Bool.not_true, Bool.false_eq_true, if_false]
          simp only [jsize] at hv
          have ha := iha items (by omega)
          cases hparts : extractArrParts f items with
          | some parts => simp
          | none => rw [hparts] at ha; simp at ha
        · simp [ht]
    · cases l with
      | nil => simp [extractObjParts]
      | cons p rest =>
        obtain ⟨k, fv⟩ := p
        simp only [jflsize] at hl
        have h1 : jsize fv ≤ f := by omega
        have h2 : jflsize rest ≤ f := by omega
        have ho := iho rest h2
        cases hr : extractObjParts f rest with
        | none => rw [hr] at ho; simp at ho
        | some parts =>
          cases fv with
          | str s => simp [extractObjParts, hr]
          | null => simp [extractObjParts, hr]
          | bool b => simp [extractObjParts, hr]
          | num n => simp [extractObjParts, hr]
          | obj fields2 =>
            have he := ihv (.obj fields2) h1
            cases hf : extractFuel f (.obj fields2) with
            | none => rw [hf] at he; simp at he
            | some s => simp [extractObjParts, hr, hf]
          | arr items2 =>
            have he := ihv (.arr items2) h1
            cases hf : extractFuel f (.arr items2) with
            | none => rw [hf] at he; simp at he
            | some s => simp [extractObjParts, hr, hf]
    · cases l with
      | nil => simp [extractArrParts]
      | cons v rest =>
        simp only [jlsize] at hl
        have h1 : jsize v ≤ f := by omega
        have h2 : jlsize rest ≤ f := by omega
        have he := ihv v h1
        have ha := iha rest h2
        cases hf : extractFuel f v with
        | none => rw [hf] at he; simp at he
        | some s =>
          cases hr : extractArrParts f rest with
          | none => rw [hr] at ha; simp at ha
          | some parts => simp [extractArrParts, hr, hf]

/-- Running the extractor with any fuel at least `jsize v` gives the same
result as running it with exactly `jsize v` (fuel irrelevance above the
sufficiency bound). -/
theorem extractFuel_canon (f : Nat) :
    (∀ v, jsize v ≤ f → extractFuel f v = extractFuel (jsize v) v) ∧
    (∀ l, jflsize l ≤ f → extractObjParts f l = extractObjParts (jflsize l) l) ∧
    (∀ l, jlsize l ≤ f → extractArrParts f l = extractArrParts (jlsize l) l) := by
  induction f using Nat.strong_induction_on with
  | _ f ih =>
    match f with
    | 0 =>
      refine ⟨fun v hv => ?_, fun l hl => ?_, fun l hl => ?_⟩
      · have := jsize_pos v; omega
      · have := jflsize_pos l; omega
      · have := jlsize_pos l; omega
    | g + 1 =>
      refine ⟨fun v hv => ?_, fun l hl => ?_, fun l hl => ?_⟩
      · cases v with
        | str s => rfl
        | null => rfl
        | bool b => rfl
        | num n => rfl
        | obj fields =>
          have hsz : jsize (JsonValue.obj fields) = jflsize fields + 1 := by
            simp [jsize]; omega
          rw [hsz]
          simp only [jsize] at hv
          simp only [extractFuel]
          cases hp : probeVal fields probeKeys with
          | some pv =>
            have hs := probeVal_size probeKeys hp
            have e1 : extractFuel g pv = extractFuel (jsize pv) pv :=
              (ih g (by omega)).1 pv (by omega)
            have e2 : extractFuel (jflsize fields) pv = extractFuel (jsize pv) pv :=
              (ih (jflsize fields) (by omega)).1 pv (by omega)
            simp only [e1, e2]
          | none =>
            have e : extractObjParts g fields = extractObjParts (jflsize fields) fields := by
              rw [(ih g (by omega)).2.1 fields (by omega)]
            simp only [e]
        | arr items =>
          have hsz : jsize (JsonValue.arr items) = jlsize items + 1 := by
            simp [jsize]; omega
          rw [hsz]
          simp only [jsize] at hv
          simp only [extractFuel]
          have e : extractArrParts g items = extractArrParts (jlsize items) items := by
            rw [(ih g (by omega)).2.2 items (by omega)]
          simp only [e]
      · cases l with
        | nil => rfl
        | cons p rest =>
          obtain ⟨k, fv⟩ := p
          have hsz : jflsize ((k, fv) :: rest) = (jsize fv + jflsize rest) + 1 := by
            simp [jflsize]; omega
          rw [hsz]
          simp only [jflsize] at hl
          simp only [extractObjParts]
          have erest : extractObjParts g rest = extractObjParts (jsize fv + jflsize rest) rest := by
            rw [(ih g (by omega)).2.1 rest (by omega),
              (ih (jsize fv + jflsize rest) (by omega)).2.1 rest (by omega)]
          have efv : extractFuel g fv = extractFuel (jsize fv + jflsize rest) fv := by
            rw [(ih g (by omega)).1 fv (by omega),
              (ih (jsize fv + jflsize rest) (by omega)).1 fv (by omega)]
          cases fv with
          | str s => simp only [erest]
          | null => simp only [erest]
          | bool b => simp only [erest]
          | num n => simp only [erest]
          | obj fields2 => simp only [erest, efv]
          | arr items2 => simp only [erest, efv]
      · cases l with
        | nil => rfl
        | cons v rest =>
          have hsz : jlsize (v :: rest) = (jsize v + jlsize rest) + 1 := by
            simp [jlsize]; omega
          rw [hsz]
          simp only [jlsize] at hl
          simp only [extractArrParts]
          have ev : extractFuel g v = extractFuel (jsize v + jlsize rest) v := by
            rw [(ih g (by omega)).1 v (by omega),
              (ih (jsize v + jlsize rest) (by omega)).1 v (by omega)]
          have erest : extractArrParts g rest = extractArrParts (jsize v + jlsize rest) rest := by
            rw [(ih g (by omega)).2.2 rest (by omega),
              (ih (jsize v + jlsize rest) (by omega)).2.2 rest (by omega)]
          simp only [ev, erest]

theorem probeVal_nil (ks : List String) : probeVal [] ks = none := by
  induction ks with
  | nil => rfl
  | cons k rest ih => simp [probeVal, JsonValue.jlookup, ih]

theorem probeVal_first {fields : List (String × JsonValue)}
    (ks₁ : List String) (k : String) (ks₂ : List String) {v : JsonValue}
    (hearlier : ∀ k' ∈ ks₁, ∀ w, JsonValue.jlookup fields k' = some w → w.truthy = false)
    (hk : JsonValue.jlookup fields k = some v) (hv : v.truthy = true) :
    probeVal fields (ks₁ ++ k :: ks₂) = some v := by
  induction ks₁ with
  | nil => simp [probeVal, hk, hv]
  | cons k' rest ih =>
    simp only [List.cons_append, probeVal]
    cases hl : JsonValue.jlookup fields k' with
    | none => exact ih (fun a ha w hw => hearlier a (List.mem_cons_of_mem _ ha) w hw)
    | some w =>
      have hw := hearlier k' (List.mem_cons_self _ _) w hl
      simp only [hw, Bool.false_eq_true, if_false]
      exact ih (fun a ha w' hw' => hearlier a (List.mem_cons_of_mem _ ha) w' hw')

/-- If the probe loop of `extract_text_content` hits, the extraction of the
whole dict is the extraction of the hit value. -/
theorem extract_obj_probe {fields : List (String × JsonValue)} {pv : JsonValue}
    (hp : probeVal fields probeKeys = some pv) :
    extract_text_content (JsonValue.obj fields) = extract_text_content pv := by
  have hne : fields.isEmpty = false := by
    cases fields with
    | nil => rw [probeVal_nil] at hp; cases hp
    | cons p rest => rfl
  have hs := probeVal_size probeKeys hp
  have hcanon := (extractFuel_canon (jflsize fields)).1 pv (by omega)
  unfold extract_text_content
  have hsz : jsize (JsonValue.obj fields) = jflsize fields + 1 := by
    simp [jsize]; omega
  rw [hsz]
  simp only [extractFuel, JsonValue.truthy, hne, Bool.not_false, Bool.true_eq_false,
    if_false, hp, hcanon]
  simp

/-- C4: for a mapping payload, `extract_text_content` probes
`website_content`, `output`, `content`, `extracted_content`, `text` in
that fixed order and recurses into the first present truthy (non-empty)
value; in particular a dict whose `content` key holds a non-empty string
`s` and which lacks `website_content` and `output` extracts to exactly
`s`. -/
theorem extract_probe_order :
    (∀ (fields : List (String × JsonValue)) (ks₁ ks₂ : List String)
        (k : String) (v : JsonValue),
        probeKeys = ks₁ ++ k :: ks₂ →
        (∀ k' ∈ ks₁, ∀ w, JsonValue.jlookup fields k' = some w → w.truthy = false) →
        JsonValue.jlookup fields k = some v → v.truthy = true →
        extract_text_content (JsonValue.obj fields) = extract_text_content v) ∧
    (∀ (fields : List (String × JsonValue)) (s : PyStr),
        JsonValue.jlookup fields "website_content" = none →
        JsonValue.jlookup fields "output" = none →
        JsonValue.jlookup fields "content" = some (JsonValue.str s) → s ≠ [] →
        extract_text_content (JsonValue.obj fields) = String.mk s) := by
  constructor
  · intro fields ks₁ ks₂ k v hsplit he hk hv
    refine extract_obj_probe ?_
    rw [hsplit]
    exact probeVal_first ks₁ k ks₂ he hk hv
  · intro fields s h1 h2 h3 hne
    have hv : (JsonValue.str s).truthy = true := by
      cases s with
      | nil => exact absurd rfl hne
      | cons c cs => rfl
    have hp : probeVal fields probeKeys = some (JsonValue.str s) := by
      refine probeVal_first ["website_content", "output"] "content"
        ["extracted_content", "text"] ?_ h3 hv
      intro k' hk' w hw
      rcases List.mem_cons.mp hk' with rfl | hk''
      · rw [h1] at hw; cases hw
      · rcases List.mem_cons.mp hk'' with rfl | hk'''
        · rw [h2] at hw; cases hw
        · cases hk'''
    rw [extract_obj_probe hp]
    simp [extract_text_content, jsize, extractFuel, hv]

/-- Witness for C4 at the concrete dict `{content: "X"}`. -/
theorem extract_probe_order_witness :
    extract_text_content (JsonValue.obj [("content", JsonValue.str ['X'])]) = "X" := by
  have h := extract_probe_order.2 [("content", JsonValue.str ['X'])] ['X']
    rfl rfl rfl (by decide)
  rw [h]

/-- C3: `extract_text_content` is total over every finite JSON value — the
fuel-indexed recursion terminates (returns `some`) with fuel `jsize v`,
and the result is always a string. -/
theorem extract_text_content_total (v : JsonValue) :
    ∃ s : String, extractFuel (jsize v) v = some s ∧ extract_text_content v = s := by
  have h := (extractFuel_total (jsize v)).1 v le_rfl
  obtain ⟨s, hs⟩ := Option.isSome_iff_exists.mp h
  exact ⟨s, hs, by simp [extract_text_content, hs]⟩

/-- C9 counterexample: the number `0` is a non-string, non-mapping,
non-sequence payload, yet `extract_text_content` returns `""`, not
`str(0) = "0"` (the falsy short-circuit fires first). -/
theorem extract_scalar_counterexample :
    isScalarValue (JsonValue.num 0) = true ∧
    extract_text_content (JsonValue.num 0) = "" ∧
    String.mk (JsonValue.pyStrScalar (JsonValue.num 0)) = "0" ∧
    extract_text_content (JsonValue.num 0) ≠
      String.mk (JsonValue.pyStrScalar (JsonValue.num 0)) := by
  refine ⟨rfl, by decide, by decide, by decide⟩

/-- C9 amended: for a non-string, non-mapping, non-sequence payload,
`extract_text_content` returns `str(value)` when the value is truthy, and
`""` when it is falsy (`None`, `False`, `0`). -/
theorem extract_scalar (v : JsonValue) (h : isScalarValue v = true) :
    (v.truthy = true → extract_text_content v = String.mk v.pyStrScalar) ∧
    (v.truthy = false → extract_text_content v = "") := by
  cases v with
  | null =>
    exact ⟨fun ht => by simp [JsonValue.truthy] at ht, fun _ => by decide⟩
  | bool b =>
    cases b with
    | true => exact ⟨fun _ => by decide, fun hf => by simp [JsonValue.truthy] at hf⟩
    | false => exact ⟨fun ht => by simp [JsonValue.truthy] at ht, fun _ => by decide⟩
  | num n =>
    constructor
    · intro ht
      simp only [JsonValue.truthy] at ht
      simp [extract_text_content, jsize, extractFuel, JsonValue.truthy, ht]
    · intro hf
      simp only [JsonValue.truthy] at hf
      simp [extract_text_content, jsize, extractFuel, JsonValue.truthy, hf]
  | str s => simp [isScalarValue] at h
  | arr l => simp [isScalarValue] at h
  | obj l => simp [isScalarValue] at h

/-- Witness for the amended C9 at `7` (truthy) and `False` (falsy). -/
theorem extract_scalar_witness :
    extract_text_content (JsonValue.num 7) = "7" ∧
    extract_text_content (JsonValue.bool false) = "" := by
  constructor
  · have h := (extract_scalar (JsonValue.num 7) (by decide)).1 (by decide)
    rw [h]; decide
  · exact (extract_scalar (JsonValue.bool false) (by decide)).2 (by decide)

/-! ## The polling loop stops at the first terminal state (claim C1) -/

theorem pollAux_attempts_le (oracle : Nat → PollResp) (left : Nat) :
    ∀ i data state, (pollAux oracle left i data state).attempts ≤ i + left := by
  induction left with
  | zero => intro i data state; simp [pollAux]
  | succ left ih =>
    intro i data state
    simp only [pollAux]
    cases hcase : oracle i with
    | httpError s b =>
      simp only [hcase]
      have := ih (i + 1) data state
      omega
    | ok fields =>
      simp only [hcase]
      by_cases ht : isTerminalState (stateVal fields)
      · simp only [ht, if_true]
        omega
      · simp only [ht, Bool.false_eq_true, if_false]
        have := ih (i + 1) (some fields) (stateVal fields)
        omega

theorem pollAux_stops_at_first (oracle : Nat → PollResp) (left : Nat) :
    ∀ i data state k, k < left →
      isTerminalResp (oracle (i + k)) = true →
      (∀ j, j < k → isTerminalResp (oracle (i + j)) = false) →
      (pollAux oracle left i data state).attempts = i + k + 1 := by
  induction left with
  | zero => intro i data state k hk; omega
  | succ left ih =>
    intro i data state k hk hterm hbefore
    simp only [pollAux]
    cases hcase : oracle i with
    | httpError s b =>
      have hk0 : k ≠ 0 := by
        intro h0
        rw [h0, Nat.add_zero, hcase] at hterm
        simp [isTerminalResp] at hterm
      have := ih (i + 1) data state (k - 1) (by omega)
        (by rw [show i + 1 + (k - 1) = i + k by omega]; exact hterm)
        (fun j hj => by
          rw [show i + 1 + j = i + (j + 1) by omega]
          exact hbefore (j + 1) (by omega))
      rw [this]; omega
    | ok fields =>
      by_cases ht : isTerminalState (stateVal fields)
      · have hk0 : k = 0 := by
          by_contra h0
          have := hbefore 0 (by omega)
          rw [Nat.add_zero, hcase] at this
          simp [isTerminalResp, ht] at this
        simp [ht, hk0]
      · have hk0 : k ≠ 0 := by
          intro h0
          rw [h0, Nat.add_zero, hcase] at hterm
          simp [isTerminalResp, ht] at hterm
        simp only [ht, Bool.false_eq_true, if_false]
        have := ih (i + 1) (some fields) (stateVal fields) (k - 1) (by omega)
          (by rw [show i + 1 + (k - 1) = i + k by omega]; exact hterm)
          (fun j hj => by
            rw [show i + 1 + j = i + (j + 1) by omega]
            exact hbefore (j + 1) (by omega))
        rw [this]; omega

/-- C1: the polling loop never issues more than 10 status fetches, and if
attempt `i` (0-based, `i < 10`) is the first whose reported state is
terminal (`DONE`/`FAILED`/`TERMINATED`), polling stops there: exactly
`i + 1` fetches are issued. -/
theorem poll_loop_spec (oracle : Nat → PollResp) :
    (poll_loop oracle).attempts ≤ 10 ∧
    (∀ i, i < 10 → isTerminalResp (oracle i) = true →
      (∀ j, j < i → isTerminalResp (oracle j) = false) →
      (poll_loop oracle).attempts = i + 1) := by
  constructor
  · have := pollAux_attempts_le oracle 10 0 none (JsonValue.str "UNKNOWN".data)
    simpa [poll_loop] using this
  · intro i hi hterm hbefore
    have := pollAux_stops_at_first oracle 10 0 none (JsonValue.str "UNKNOWN".data)
      i hi (by simpa using hterm) (fun j hj => by simpa using hbefore j hj)
    simpa [poll_loop] using this

/-- Witness for C1: with `doneAtThird` the loop stops after exactly 3
fetches (and 3 ≤ 10). -/
theorem poll_loop_spec_witness : (poll_loop doneAtThird).attempts = 3 := by
  exact (poll_loop_spec doneAtThird).2 2 (by omega) (by decide) (by decide)

/-! ## Persistence when the start call fails (claim C2) -/

/-- C2: when the pipeline start call fails with a network-level error,
exactly one row is persisted; its `saved_item_id` is the non-empty
locally synthesized fallback id and its `gumloop_data` contains an
`error` key. -/
theorem save_page_net_error (title url e : PyStr) (oracle : Nat → PollResp)
    (timeNow : Int) (uuidHex : PyStr) :
    (save_page title url (.netError e) oracle timeNow uuidHex).rows =
      [⟨title, url, JsonValue.obj [("error", JsonValue.str e)],
        JsonValue.str (fallbackId timeNow uuidHex)⟩] ∧
    (save_page title url (.netError e) oracle timeNow uuidHex).rows.length = 1 ∧
    fallbackId timeNow uuidHex ≠ [] ∧
    hasKey (JsonValue.obj [("error", JsonValue.str e)]) "error" = true := by
  refine ⟨rfl, rfl, ?_, rfl⟩
  intro h
  have := List.append_eq_nil.mp h
  cases this.2

/-! ## Snippet extraction (claims C5, C6) -/

/-- `find` returns `-1` exactly when the needle is not an infix of the
haystack. -/
theorem strFindAux_eq_neg_one (needle : PyStr) :
    ∀ (h : PyStr) (i : Nat), strFindAux needle h i = -1 ↔ ¬ needle <:+: h := by
  intro h
  induction h with
  | nil =>
    intro i
    simp only [strFindAux]
    by_cases hp : needle.isPrefixOf [] = true
    · have hn : needle = [] := List.prefix_nil.mp (List.isPrefixOf_iff_prefix.mp hp)
      subst hn
      simp only [hp, if_true, List.infix_nil]
      refine ⟨fun hh => by omega, fun hh => absurd trivial hh⟩
    · have hn : needle ≠ [] := fun he => hp (by subst he; rfl)
      simp [hp, List.infix_nil, hn]
  | cons c rest ih =>
    intro i
    simp only [strFindAux]
    by_cases hp : needle.isPrefixOf (c :: rest) = true
    · have hpre : needle <+: c :: rest := List.isPrefixOf_iff_prefix.mp hp
      simp only [hp, if_true]
      exact ⟨fun hh => by omega, fun hh => absurd hpre.isInfix hh⟩
    · simp only [hp, Bool.false_eq_true, if_false]
      rw [ih (i + 1), List.infix_cons_iff]
      have hnp : ¬ needle <+: c :: rest :=
        fun hh => hp (List.isPrefixOf_iff_prefix.mpr hh)
      tauto

/-- See `strFindAux_eq_neg_one`. -/
theorem strFind_eq_neg_one (hay needle : PyStr) :
    strFind hay needle = -1 ↔ ¬ needle <:+: hay :=
  strFindAux_eq_neg_one needle hay 0

/-- C5 counterexample: on the empty text the advanced snippet function
returns `None` (its falsy-input guard fires), not
`text[:maxLength] + "..." = "..."` — the claim fails for empty text even
though the query does not occur in it. -/
theorem snippet_absent_counterexample :
    ¬ (toLowerP ['x'] <:+: toLowerP []) ∧
    extract_content_snippet_advanced [] ['x'] 250 = none ∧
    (none : Option PyStr) ≠ some (([] : PyStr).take 250 ++ "...".data) := by
  refine ⟨by decide, rfl, by simp⟩

/-- C5 amended: for every **non-empty** text and every query that does not
occur case-insensitively in it, both snippet variants return exactly
`text[:maxLength] + "..."` (the empty text returns `None` instead). -/
theorem snippet_absent (text query : PyStr) (maxLen : Nat)
    (hne : text ≠ [])
    (habs : ¬ (toLowerP query <:+: toLowerP text)) :
    extract_content_snippet_advanced text query maxLen =
      some (text.take maxLen ++ "...".data) ∧
    extract_content_snippet (.str text) query maxLen =
      .ok (some (text.take maxLen ++ "...".data)) := by
  have hfind : strFind (toLowerP text) (toLowerP query) = -1 :=
    (strFind_eq_neg_one _ _).mpr habs
  have hemp : text.isEmpty = false := by
    cases text with
    | nil => exact absurd rfl hne
    | cons c cs => rfl
  constructor
  · simp [extract_content_snippet_advanced, hemp, snippetQueryPos, hfind]
  · simp [extract_content_snippet, JsonValue.truthy, hemp, pyStrFull, hfind]

/-- Witness for the amended C5 at `("hello", "zz", 4)`. -/
theorem snippet_absent_witness :
    extract_content_snippet_advanced "hello".data "zz".data 4 =
      some ("hello".data.take 4 ++ "...".data) ∧
    extract_content_snippet (.str "hello".data) "zz".data 4 =
      .ok (some ("hello".data.take 4 ++ "...".data)) :=
  snippet_absent "hello".data "zz".data 4 (by decide) (by decide)

theorem lastSpaceIdx_none {l : PyStr} (h : lastSpaceIdx l = none) :
    ∀ i, i < l.length → l[i]? ≠ some ' ' := by
  induction l with
  | nil => intro i hi; simp at hi
  | cons c rest ih =>
    intro i hi
    simp only [lastSpaceIdx] at h
    cases hr : lastSpaceIdx rest with
    | some j => rw [hr] at h; cases h
    | none =>
      rw [hr] at h
      have hc : c ≠ ' ' := by
        intro he; rw [if_pos he] at h; cases h
      cases i with
      | zero => simpa using hc
      | succ i' =>
        simp only [List.getElem?_cons_succ]
        exact ih hr i' (by simpa using hi)

theorem lastSpaceIdx_some {l : PyStr} {j : Nat} (h : lastSpaceIdx l = some j) :
    j < l.length ∧ l[j]? = some ' ' ∧
      ∀ i, j < i → i < l.length → l[i]? ≠ some ' ' := by
  induction l generalizing j with
  | nil => cases h
  | cons c rest ih =>
    simp only [lastSpaceIdx] at h
    cases hr : lastSpaceIdx rest with
    | some j' =>
      rw [hr] at h
      cases h
      obtain ⟨h1, h2, h3⟩ := ih hr
      refine ⟨by simpa using h1, by simpa using h2, ?_⟩
      intro i hji hi
      cases i with
      | zero => omega
      | succ i' =>
        simp only [List.getElem?_cons_succ]
        exact h3 i' (by omega) (by simpa using hi)
    | none =>
      rw [hr] at h
      by_cases hc : c = ' '
      · rw [if_pos hc] at h
        cases h
        refine ⟨by simp, by simpa using hc, ?_⟩
        intro i hji hi
        cases i with
        | zero => omega
        | succ i' =>
          simp only [List.getElem?_cons_succ]
          exact lastSpaceIdx_none hr i' (by simpa using hi)
      · rw [if_neg hc] at h; cases h

theorem firstSpaceIdx_none {l : PyStr} (h : firstSpaceIdx l = none) :
    ∀ i, i < l.length → l[i]? ≠ some ' ' := by
  induction l with
  | nil => intro i hi; simp at hi
  | cons c rest ih =>
    intro i hi
    simp only [firstSpaceIdx] at h
    by_cases hc : c = ' '
    · rw [if_pos hc] at h; cases h
    · rw [if_neg hc] at h
      cases i with
      | zero => simpa using hc
      | succ i' =>
        simp only [List.getElem?_cons_succ]
        cases hr : firstSpaceIdx rest with
        | some j => rw [hr] at h; cases h
        | none => exact ih hr i' (by simpa using hi)

theorem firstSpaceIdx_some {l : PyStr} {j : Nat} (h : firstSpaceIdx l = some j) :
    j < l.length ∧ l[j]? = some ' ' ∧
      ∀ i, i < j → l[i]? ≠ some ' ' := by
  induction l generalizing j with
  | nil => cases h
  | cons c rest ih =>
    simp only [firstSpaceIdx] at h
    by_cases hc : c = ' '
    · rw [if_pos hc] at h
      cases h
      exact ⟨by simp, by simpa using hc, fun i hi => by omega⟩
    · rw [if_neg hc] at h
      cases hr : firstSpaceIdx rest with
      | none => rw [hr] at h; cases h
      | some j' =>
        rw [hr] at h
        simp only [Option.map] at h
        cases h
        obtain ⟨h1, h2, h3⟩ := ih hr
        refine ⟨by simpa using h1, by simpa using h2, ?_⟩
        intro i hi
        cases i with
        | zero => simpa using hc
        | succ i' =>
          simp only [List.getElem?_cons_succ]
          exact h3 i' (by omega)

theorem rfindSpace_none {text : PyStr} {b : Nat} (h : rfindSpace text b = none) :
    NoSpaceIn text 0 (min b text.length) := by
  intro i _ hi
  have hib : i < b := (Nat.lt_min.mp hi).1
  have := lastSpaceIdx_none h i
    (by simpa [List.length_take] using hi)
  rwa [List.getElem?_take, if_pos hib] at this

theorem rfindSpace_some {text : PyStr} {b j : Nat} (h : rfindSpace text b = some j) :
    IsLastSpaceBefore text b j := by
  obtain ⟨h1, h2, h3⟩ := lastSpaceIdx_some h
  rw [List.length_take] at h1
  have hjb : j < b := (Nat.lt_min.mp h1).1
  refine ⟨h1, by rwa [List.getElem?_take, if_pos hjb] at h2, ?_⟩
  intro i hji hi
  have hib : i < b := (Nat.lt_min.mp hi).1
  have := h3 i hji (by simpa [List.length_take] using hi)
  rwa [List.getElem?_take, if_pos hib] at this

theorem findSpaceFrom_none {text : PyStr} {start : Int}
    (h : findSpaceFrom text start = none) :
    NoSpaceIn text (pyClampFrom text.length start) text.length := by
  intro i hsi hi
  simp only [findSpaceFrom, Option.map_eq_none'] at h
  have := firstSpaceIdx_none h (i - pyClampFrom text.length start)
    (by simp [List.length_drop]; omega)
  rw [List.getElem?_drop] at this
  rw [show pyClampFrom text.length start + (i - pyClampFrom text.length start) = i
    by omega] at this
  exact this

theorem findSpaceFrom_some {text : PyStr} {start : Int} {j : Nat}
    (h : findSpaceFrom text start = some j) :
    IsFirstSpaceFrom text (pyClampFrom text.length start) j := by
  simp only [findSpaceFrom] at h
  cases hr : firstSpaceIdx (text.drop (pyClampFrom text.length start)) with
  | none => rw [hr] at h; cases h
  | some j' =>
    rw [hr] at h
    simp only [Option.map] at h
    cases h
    obtain ⟨h1, h2, h3⟩ := firstSpaceIdx_some hr
    rw [List.length_drop] at h1
    rw [List.getElem?_drop] at h2
    refine ⟨Nat.le_add_right _ _, by omega, h2, ?_⟩
    intro i hsi hij
    have := h3 (i - pyClampFrom text.length start) (by omega)
    rw [List.getElem?_drop] at this
    rw [show pyClampFrom text.length start + (i - pyClampFrom text.length start) = i
      by omega] at this
    exact this

/-- C6 counterexample: for `cexText`, query `"q"`, `max_length = 10`, the
window `[38, 48)` touches neither text boundary, yet the advanced
variant moves the window start **backward** to 2 — one past the last
space of the whole prefix, 36 positions away, far beyond the
20-character budget — and the resulting excerpt is 46 characters, well
over `max_length`. -/
theorem snippet_adjust_counterexample :
    0 < snippetStart0 cexText ['q'] 10 ∧
    snippetEnd0 cexText ['q'] 10 < cexText.length ∧
    snippetStart0 cexText ['q'] 10 = 38 ∧
    snippetAdjStart cexText ['q'] 10 = 2 ∧
    ¬(snippetStart0 cexText ['q'] 10 ≤ snippetAdjStart cexText ['q'] 10 ∧
      snippetAdjStart cexText ['q'] 10 ≤ snippetStart0 cexText ['q'] 10 + 20) ∧
    ((cexText.take (snippetAdjEnd cexText ['q'] 10)).drop
      (snippetAdjStart cexText ['q'] 10)).length = 46 := by
  refine ⟨by decide, by decide, by decide, by decide, by decide, by decide⟩

/-- C6 amended: in the advanced variant, when the window touches neither
text boundary the start is moved to one past the **last** space occurring
anywhere strictly before `start + 20` (which may be far to the left of
the budget, or forward), and the end is moved to the **first** space at
or after `end - 20` (Python-clamped; possibly far to the right); each
endpoint is unchanged when no such space exists. The basic variant
applies no boundary adjustment: its excerpt is exactly the unadjusted
window `[start, end)` with ellipsis markers. -/
theorem snippet_boundary_spec (text query : PyStr) (maxLen : Nat) :
    (0 < snippetStart0 text query maxLen →
      (NoSpaceIn text 0 (min (snippetStart0 text query maxLen + 20) text.length) ∧
        snippetAdjStart text query maxLen = snippetStart0 text query maxLen) ∨
      (∃ j, IsLastSpaceBefore text (snippetStart0 text query maxLen + 20) j ∧
        snippetAdjStart text query maxLen = j + 1)) ∧
    (snippetEnd0 text query maxLen < text.length →
      (NoSpaceIn text
          (pyClampFrom text.length ((snippetEnd0 text query maxLen : Int) - 20))
          text.length ∧
        snippetAdjEnd text query maxLen = snippetEnd0 text query maxLen) ∨
      (∃ j, IsFirstSpaceFrom text
          (pyClampFrom text.length ((snippetEnd0 text query maxLen : Int) - 20)) j ∧
        snippetAdjEnd text query maxLen = j)) ∧
    (text ≠ [] → snippetQueryPos text query ≠ -1 →
      extract_content_snippet (.str text) query maxLen = .ok (some (
        (if 0 < snippetStart0 text query maxLen then "...".data else []) ++
        ((text.take (snippetEnd0 text query maxLen)).drop
          (snippetStart0 text query maxLen)) ++
        (if snippetEnd0 text query maxLen < text.length then "...".data else [])))) := by
  refine ⟨?_, ?_, ?_⟩
  · intro h0
    cases hr : rfindSpace text (snippetStart0 text query maxLen + 20) with
    | none =>
      left
      refine ⟨rfindSpace_none hr, ?_⟩
      simp only [snippetAdjStart, if_pos h0, hr]
    | some j =>
      right
      refine ⟨j, rfindSpace_some hr, ?_⟩
      simp only [snippetAdjStart, if_pos h0, hr]
  · intro hlt
    cases hr : findSpaceFrom text ((snippetEnd0 text query maxLen : Int) - 20) with
    | none =>
      left
      refine ⟨findSpaceFrom_none hr, ?_⟩
      simp only [snippetAdjEnd, if_pos hlt, hr]
    | some j =>
      right
      refine ⟨j, findSpaceFrom_some hr, ?_⟩
      simp only [snippetAdjEnd, if_pos hlt, hr]
  · intro hne hq
    have hemp : text.isEmpty = false := by
      cases text with
      | nil => exact absurd rfl hne
      | cons c cs => rfl
    simp only [snippetQueryPos] at hq
    simp [extract_content_snippet, JsonValue.truthy, hemp, pyStrFull, hq,
      snippetStart0, snippetEnd0, snippetQueryPos]

/-- Witness for the amended C6 at `("aa bb cc dd ee", "cc", 6)`: the
window is `[3, 9)`, the start is adjusted to 12 (one past the last space
before 23) and the end to 5 (the first space at or after `9 - 20`,
clamped to 3); the basic variant returns the unadjusted window. -/
theorem snippet_boundary_spec_witness :
    ((NoSpaceIn wText 0 (min (snippetStart0 wText "cc".data 6 + 20) wText.length) ∧
        snippetAdjStart wText "cc".data 6 = snippetStart0 wText "cc".data 6) ∨
      (∃ j, IsLastSpaceBefore wText (snippetStart0 wText "cc".data 6 + 20) j ∧
        snippetAdjStart wText "cc".data 6 = j + 1)) ∧
    ((NoSpaceIn wText
          (pyClampFrom wText.length ((snippetEnd0 wText "cc".data 6 : Int) - 20))
          wText.length ∧
        snippetAdjEnd wText "cc".data 6 = snippetEnd0 wText "cc".data 6) ∨
      (∃ j, IsFirstSpaceFrom wText
          (pyClampFrom wText.length ((snippetEnd0 wText "cc".data 6 : Int) - 20)) j ∧
        snippetAdjEnd wText "cc".data 6 = j)) ∧
    extract_content_snippet (.str wText) "cc".data 6 = .ok (some (
      (if 0 < snippetStart0 wText "cc".data 6 then "...".data else []) ++
      ((wText.take (snippetEnd0 wText "cc".data 6)).drop
        (snippetStart0 wText "cc".data 6)) ++
      (if snippetEnd0 wText "cc".data 6 < wText.length then "...".data else []))) := by
  obtain ⟨p1, p2, p3⟩ := snippet_boundary_spec wText "cc".data 6
  exact ⟨p1 (by decide), p2 (by decide), p3 (by decide) (by decide)⟩

/-! ## Keyword scoring (claim C7) -/

theorem score_page_foldl_shift (words : List PyStr) (title body : PyStr) :
    ∀ a : Nat,
      words.foldl (fun acc w =>
        acc + (if isSubstrOf w (toLowerP title) then 3 else 0)
            + (if isSubstrOf w (toLowerP body) then 1 else 0)) a =
      a + score_page words title body := by
  induction words with
  | nil => intro a; simp [score_page]
  | cons w rest ih =>
    intro a
    simp only [score_page, List.foldl_cons]
    rw [ih, ih]
    omega

theorem score_page_cons (w : PyStr) (words : List PyStr) (title body : PyStr) :
    score_page (w :: words) title body =
      (if isSubstrOf w (toLowerP title) then 3 else 0) +
      (if isSubstrOf w (toLowerP body) then 1 else 0) +
      score_page words title body := by
  simp only [score_page, List.foldl_cons]
  rw [score_page_foldl_shift, score_page_foldl_shift]
  omega

theorem score_page_title_all (words : List PyStr) (title body : PyStr)
    (h : ∀ w ∈ words, isSubstrOf w (toLowerP title) = true) :
    3 * words.length ≤ score_page words title body := by
  induction words with
  | nil => simp [score_page]
  | cons w rest ih =>
    have hw := h w (List.mem_cons_self _ _)
    have hr := ih (fun a ha => h a (List.mem_cons_of_mem _ ha))
    rw [score_page_cons, hw, if_pos rfl]
    by_cases hb : isSubstrOf w (toLowerP body) = true
    · rw [hb, if_pos rfl]; simp only [List.length_cons]; omega
    · rw [if_neg (by simpa using hb)]; simp only [List.length_cons]; omega

theorem score_page_title_none (words : List PyStr) (title body : PyStr)
    (h : ∀ w ∈ words, isSubstrOf w (toLowerP title) = false) :
    score_page words title body ≤ words.length := by
  induction words with
  | nil => simp [score_page]
  | cons w rest ih =>
    have hw := h w (List.mem_cons_self _ _)
    have hr := ih (fun a ha => h a (List.mem_cons_of_mem _ ha))
    rw [score_page_cons, if_neg (by simp [hw])]
    by_cases hb : isSubstrOf w (toLowerP body) = true
    · rw [hb, if_pos rfl]; simp only [List.length_cons]; omega
    · rw [if_neg (by simpa using hb)]; simp only [List.length_cons]; omega

/-- C7: for a non-empty list of filtered query tokens, a document whose
lowercased title contains every token scores strictly higher than one
whose title contains none of them, even when the latter's body contains
them all (3 per title hit vs at most 1 per body hit). -/
theorem keyword_ranker_title_beats_body
    (words : List PyStr) (titleA bodyA titleB bodyB : PyStr)
    (hne : words ≠ [])
    (hA : ∀ w ∈ words, isSubstrOf w (toLowerP titleA) = true)
    (hB : ∀ w ∈ words, isSubstrOf w (toLowerP titleB) = false)
    (_hBbody : ∀ w ∈ words, isSubstrOf w (toLowerP bodyB) = true) :
    score_page words titleB bodyB < score_page words titleA bodyA := by
  have h1 := score_page_title_all words titleA bodyA hA
  have h2 := score_page_title_none words titleB bodyB hB
  have hlen : 1 ≤ words.length := by
    cases words with
    | nil => exact absurd rfl hne
    | cons w rest => simp
  omega

/-- Witness for C7: token `"foo"`, title-matching document beats
body-only document. -/
theorem keyword_ranker_witness :
    score_page ["foo".data] (toLowerP "Foo bar".data) "".data >
      score_page ["foo".data] "baz".data "all about foo".data := by
  exact keyword_ranker_title_beats_body ["foo".data] (toLowerP "Foo bar".data)
    "".data "baz".data "all about foo".data (by simp)
    (by decide) (by decide) (by decide)

/-! ## LLM re-ranking (claim C10) -/

theorem insertDesc_perm (d : SearchDoc) (l : List SearchDoc) :
    (insertDesc d l).Perm (d :: l) := by
  induction l with
  | nil => simp [insertDesc]
  | cons e rest ih =>
    simp only [insertDesc]
    by_cases h : relKey e ≤ relKey d
    · rw [if_pos h]
    · rw [if_neg h]
      exact (ih.cons e).trans (List.Perm.swap d e rest)

theorem sortDesc_perm (l : List SearchDoc) : (sortDesc l).Perm l := by
  induction l with
  | nil => simp [sortDesc]
  | cons d rest ih =>
    exact (insertDesc_perm d (sortDesc rest)).trans (ih.cons d)

theorem insertDesc_sorted (d : SearchDoc) (l : List SearchDoc)
    (h : l.Pairwise (fun a b => relKey b ≤ relKey a)) :
    (insertDesc d l).Pairwise (fun a b => relKey b ≤ relKey a) := by
  induction l with
  | nil => simp [insertDesc]
  | cons e rest ih =>
    simp only [insertDesc]
    rcases List.pairwise_cons.mp h with ⟨he, hrest⟩
    by_cases hed : relKey e ≤ relKey d
    · rw [if_pos hed]
      refine List.pairwise_cons.mpr ⟨?_, h⟩
      intro x hx
      rcases List.mem_cons.mp hx with rfl | hx'
      · exact hed
      · exact le_trans (he x hx') hed
    · rw [if_neg hed]
      refine List.pairwise_cons.mpr ⟨?_, ih hrest⟩
      intro x hx
      have hx' := (insertDesc_perm d rest).mem_iff.mp hx
      rcases List.mem_cons.mp hx' with rfl | hx''
      · exact le_of_lt (lt_of_not_le hed)
      · exact he x hx''

theorem sortDesc_sorted (l : List SearchDoc) :
    (sortDesc l).Pairwise (fun a b => relKey b ≤ relKey a) := by
  induction l with
  | nil => simp [sortDesc]
  | cons d rest ih => exact insertDesc_sorted d (sortDesc rest) ih

/-- C10: `llm_rank_search_results` never adds or removes a document (the
output's identities are a permutation of the input's); on a successful
call the output is ordered by descending `relevance_score` (missing
scores count as 0); and when the LLM call or the score parsing raises,
the input list is returned in its original order, unchanged. -/
theorem llm_rank_spec (query : PyStr) (results : List SearchDoc) :
    (∀ llm, ((llm_rank_search_results query results llm).map docCore).Perm
      (results.map docCore)) ∧
    (∀ ms, (llm_rank_search_results query results (.ok ms)).Pairwise
      (fun a b => relKey b ≤ relKey a)) ∧
    (∀ e, llm_rank_search_results query results (.error e) = results) := by
  refine ⟨?_, ?_, fun e => rfl⟩
  · intro llm
    match llm with
    | .error e => exact List.Perm.refl _
    | .ok ms =>
      simp only [llm_rank_search_results]
      refine ((sortDesc_perm _).map docCore).trans ?_
      rw [List.map_map]
      have hcore : ∀ d : SearchDoc,
          (docCore ∘ fun d =>
            match lookupQ (buildScoresMap (results.take 5) ms []) d.id with
            | some s => { d with relevanceScore := some s }
            | none => d) d = docCore d := by
        intro d
        show docCore (match lookupQ (buildScoresMap (results.take 5) ms []) d.id with
          | some s => { d with relevanceScore := some s }
          | none => d) = docCore d
        cases lookupQ (buildScoresMap (results.take 5) ms []) d.id with
        | some s => rfl
        | none => rfl
      rw [List.map_congr_left (fun d _ => hcore d)]
  · intro ms
    simp only [llm_rank_search_results]
    exact sortDesc_sorted _

/-! ## Search results on an empty corpus (claim C8) -/

/-- A `"Found ..."` message is never the no-content message. -/
theorem found_ne_noPages (m : PyStr) :
    "Found ".data ++ m ≠ "No saved pages found".data := by
  intro h
  have h1 : ("Found ".data ++ m).head? = some 'F' := rfl
  rw [h] at h1
  exact absurd h1 (by decide)

/-- C8 counterexample: the basic search returns the *same* message
(`"No results found"`, with an empty item list) for an empty corpus and
for a non-empty corpus with zero matches — the claimed distinction does
not exist on this code path. -/
theorem search_messages_counterexample :
    ([nonMatchingPage] : List StoredPage) ≠ [] ∧
    search_database "zzz".data [] = .ok ⟨"No results found".data, []⟩ ∧
    search_database "zzz".data [nonMatchingPage] =
      .ok ⟨"No results found".data, []⟩ := by
  refine ⟨by simp, rfl, rfl⟩

/-- C8 amended: the **advanced** search makes the claimed distinction —
an empty corpus yields an empty item list with the message
`"No saved pages found"`, which differs from the `"Found N results"`
message produced for every non-empty corpus (including `"Found 0
results"` for zero matches) — while the **basic** search answers an empty
corpus with its generic `"No results found"` message. -/
theorem advanced_search_empty_corpus (query : PyStr) (useLLM client : Bool)
    (llm : Except Unit (List (Nat × ℚ))) :
    advanced_search_database query useLLM client llm [] =
      ⟨"No saved pages found".data, []⟩ ∧
    (∀ pages : List StoredPage, pages ≠ [] →
      (advanced_search_database query useLLM client llm pages).message ≠
        "No saved pages found".data) ∧
    search_database query [] = .ok ⟨"No results found".data, []⟩ := by
  refine ⟨rfl, ?_, rfl⟩
  intro pages hne
  cases pages with
  | nil => exact absurd rfl hne
  | cons p rest =>
    simp only [advanced_search_database, List.isEmpty_cons, Bool.false_eq_true,
      if_false]
    exact found_ne_noPages _

/-- Witness for the amended C8 at a singleton corpus. -/
theorem advanced_search_empty_corpus_witness :
    advanced_search_database "q".data false false (.error ()) [] =
      ⟨"No saved pages found".data, []⟩ ∧
    (advanced_search_database "q".data false false (.error ())
      [nonMatchingPage]).message ≠ "No saved pages found".data ∧
    search_database "q".data [] = .ok ⟨"No results found".data, []⟩ := by
  obtain ⟨p1, p2, p3⟩ :=
    advanced_search_empty_corpus "q".data false false (.error ())
  exact ⟨p1, p2 [nonMatchingPage] (by simp), p3⟩
